import Mathlib

/-!
Verification of the text-case conversion library (chain_prompt.js,
refined_prompt.js, few_shot_prompt.js).

Strings are modelled as `List Char`.  The JavaScript regular-expression
rewrites used by the source are modelled character by character:

* `/[^a-zA-Z0-9\s]/g → ' '`   is `foldPunct`,
* `/[^a-zA-Z\s]/g → ' '`      is `foldLetters` (used only by `camelCase`),
* `/\s+/g → ' '`              is `collapseWs`,
* `/([a-z])([A-Z])/g → '$1 $2'` is `insertBoundaries`,
* `String.prototype.trim`     is `jsTrim`,
* `String.prototype.split(' ')` is `splitSp`,
* `Array.prototype.join(sep)` is `joinSep`,
* `String.prototype.toLowerCase` / `toUpperCase` (ASCII fragment) are
  `jsToLower` / `jsToUpperChar`.

Dynamically typed arguments are modelled by `JSValue`; a thrown
`TypeError` is modelled by the `Except` error channel.
-/

/-- ASCII lowercase letter test, the character class [a-z]. -/
def isAsciiLower (c : Char) : Bool := 97 ≤ c.toNat && c.toNat ≤ 122

/-- ASCII uppercase letter test, the character class [A-Z]. -/
def isAsciiUpper (c : Char) : Bool := 65 ≤ c.toNat && c.toNat ≤ 90

/-- ASCII digit test, the character class [0-9]. -/
def isAsciiDigit (c : Char) : Bool := 48 ≤ c.toNat && c.toNat ≤ 57

/-- ASCII letter test, the character class [a-zA-Z]. -/
def isLetter (c : Char) : Bool := isAsciiLower c || isAsciiUpper c

/-- ASCII alphanumeric test, the character class [a-zA-Z0-9]. -/
def isAlnum (c : Char) : Bool := isLetter c || isAsciiDigit c

/-- Whitespace test modelling the JavaScript \s class on ASCII input:
space, tab, line feed, carriage return, vertical tab and form feed. -/
def isWs (c : Char) : Bool :=
  c.toNat = 32 || c.toNat = 9 || c.toNat = 10 || c.toNat = 13 ||
  c.toNat = 11 || c.toNat = 12

/-- Character class [-_\s] used by toCamelCase in refined_prompt.js. -/
def isCamSep (c : Char) : Bool := c = '-' || c = '_' || isWs c

/-- ASCII fragment of String.prototype.toLowerCase on one character. -/
def jsToLowerChar (c : Char) : Char :=
  if isAsciiUpper c then Char.ofNat (c.toNat + 32) else c

/-- ASCII fragment of String.prototype.toUpperCase on one character. -/
def jsToUpperChar (c : Char) : Char :=
  if isAsciiLower c then Char.ofNat (c.toNat - 32) else c

/-- String.prototype.toLowerCase over a whole string (ASCII fragment). -/
def jsToLower (l : List Char) : List Char := l.map jsToLowerChar

/-- String.prototype.trim: drop whitespace from both ends. -/
def jsTrim (l : List Char) : List Char :=
  ((l.dropWhile isWs).reverse.dropWhile isWs).reverse

/-- One character of the rewrite /[^a-zA-Z0-9\s]/g → ' '. -/
def foldPunctChar (c : Char) : Char := if isAlnum c || isWs c then c else ' '

/-- The rewrite str.replace(/[^a-zA-Z0-9\s]/g, ' '). -/
def foldPunct (l : List Char) : List Char := l.map foldPunctChar

/-- One character of the rewrite /[^a-zA-Z\s]/g → ' ' (digits are hit too). -/
def foldLetterChar (c : Char) : Char := if isLetter c || isWs c then c else ' '

/-- The rewrite str.replace(/[^a-zA-Z\s]/g, ' ') used by camelCase in
refined_prompt.js; unlike `foldPunct` it also turns digits into spaces. -/
def foldLetters (l : List Char) : List Char := l.map foldLetterChar

/-- The rewrite str.replace(/\s+/g, ' '): every maximal run of whitespace
becomes a single space. -/
def collapseWs : List Char → List Char
  | [] => []
  | [c] => [if isWs c then ' ' else c]
  | a :: b :: rest =>
    if isWs a && isWs b then collapseWs (b :: rest)
    else (if isWs a then ' ' else a) :: collapseWs (b :: rest)

/-- The rewrite str.replace(/([a-z])([A-Z])/g, '$1 $2'): a space is inserted
between a lowercase letter and an immediately following uppercase letter. -/
def insertBoundaries : List Char → List Char
  | [] => []
  | [c] => [c]
  | a :: b :: rest =>
    if isAsciiLower a && isAsciiUpper b then a :: ' ' :: insertBoundaries (b :: rest)
    else a :: insertBoundaries (b :: rest)

/-- String.prototype.split(' '): split at every single space; empty
segments are kept, as in JavaScript. -/
def splitSp : List Char → List (List Char)
  | [] => [[]]
  | c :: rest =>
    if c = ' ' then [] :: splitSp rest
    else
      match splitSp rest with
      | [] => [[c]]
      | w :: ws => (c :: w) :: ws

/-- Array.prototype.join with a one-character separator. -/
def joinSep (sep : Char) : List (List Char) → List Char
  | [] => []
  | [w] => w
  | w :: ws => w ++ sep :: joinSep sep ws

/-- The expression word.charAt(0).toUpperCase() + word.slice(1). -/
def capFirst : List Char → List Char
  | [] => []
  | c :: rest => jsToUpperChar c :: rest

/-- The rewrite str.replace(/^(.)/, c => c.toLowerCase()). -/
def lowerFirst : List Char → List Char
  | [] => []
  | c :: rest => jsToLowerChar c :: rest

mutual

/-- The rewrite str.replace(/[-_\s]+(.)?/g, (_, c) => c ? c.toUpperCase() : '')
from toCamelCase in refined_prompt.js: a run of separators is removed and the
character following it is uppercased. -/
def tccReplace : List Char → List Char
  | [] => []
  | c :: rest => if isCamSep c then tccSkip rest else c :: tccReplace rest

/-- Inside a separator run of the toCamelCase rewrite: skip the remaining
separators, then uppercase the first non-separator character. -/
def tccSkip : List Char → List Char
  | [] => []
  | d :: rest => if isCamSep d then tccSkip rest else jsToUpperChar d :: tccReplace rest

end

/-- The camelCase fold shared verbatim by chainCamelCase (chain_prompt.js
lines 88-95) and robustCamelCase (refined_prompt.js lines 80-88): word 0 is
lowercased, every later word is lowercased and its first letter uppercased,
and the results are concatenated. -/
def camelJoin : List (List Char) → List Char
  | [] => []
  | w :: rest => jsToLower w ++ (rest.map (fun x => capFirst (jsToLower x))).flatten

/-- The indexed map of camelCase in refined_prompt.js lines 248-258 (input
words are already lowercase because the whole string was lowercased first):
word 0 is kept, later words get their first character uppercased. -/
def camelMapIdx : List (List Char) → List (List Char)
  | [] => []
  | w :: rest => w :: rest.map capFirst

/-- Normalized space-delimited form built by normalizeString in
chain_prompt.js lines 62-72: trim, fold punctuation to spaces, collapse
whitespace, trim again. -/
def normalizedForm (s : List Char) : List Char :=
  jsTrim (collapseWs (foldPunct (jsTrim s)))

/-- Token list produced by normalizeString in chain_prompt.js lines 56-76
on a string argument: empty input gives no tokens, otherwise the normalized
form is split on spaces and empty segments are dropped. -/
def normalizeWords (s : List Char) : List (List Char) :=
  if (jsTrim s).length = 0 then []
  else (splitSp (normalizedForm s)).filter (fun w => decide (0 < w.length))

/-- chainCamelCase from chain_prompt.js lines 83-96, string argument. -/
def chainCamelCaseStr (s : List Char) : List Char :=
  let words := normalizeWords s
  if words.length = 0 then [] else camelJoin words

/-- chainSnakeCase from chain_prompt.js lines 103-106, string argument. -/
def chainSnakeCaseStr (s : List Char) : List Char :=
  joinSep '_' ((normalizeWords s).map jsToLower)

/-- chainDotCase from chain_prompt.js lines 113-116, string argument. -/
def chainDotCaseStr (s : List Char) : List Char :=
  joinSep '.' ((normalizeWords s).map jsToLower)

/-- chainKebabCase from chain_prompt.js lines 123-126, string argument. -/
def chainKebabCaseStr (s : List Char) : List Char :=
  joinSep '-' ((normalizeWords s).map jsToLower)

/-- The Pascal fold of chainPascalCase (chain_prompt.js lines 209-214):
every word is lowercased, its first letter uppercased, then concatenated. -/
def pascalJoin (ws : List (List Char)) : List Char :=
  (ws.map (fun w => capFirst (jsToLower w))).flatten

/-- chainPascalCase from chain_prompt.js lines 207-215, string argument. -/
def chainPascalCaseStr (s : List Char) : List Char :=
  pascalJoin (normalizeWords s)

/-- toKebabCase from chain_prompt.js lines 164-199, string argument.  Its
pipeline additionally inserts a space at every lowercase-uppercase letter
boundary (line 184) before collapsing whitespace. -/
def toKebabCaseStr (s : List Char) : List Char :=
  if (jsTrim s).length = 0 then []
  else
    let n := jsTrim (collapseWs (insertBoundaries (foldPunct (jsTrim s))))
    let words := (splitSp n).filter (fun w => decide (0 < w.length))
    if words.length = 0 then []
    else joinSep '-' (words.map jsToLower)

/-- robustCamelCase from refined_prompt.js lines 51-89, string argument. -/
def robustCamelCaseStr (s : List Char) : List Char :=
  if (jsTrim s).length = 0 then []
  else
    let n := jsTrim (collapseWs (foldPunct (jsTrim s)))
    let words := (splitSp n).filter (fun w => decide (0 < w.length))
    if words.length = 0 then []
    else camelJoin words

/-- toDotCase from refined_prompt.js lines 122-149, string argument: the
normalized form is lowercased as a whole, split on spaces, filtered and
joined with dots. -/
def toDotCaseStr (s : List Char) : List Char :=
  if (jsTrim s).length = 0 then []
  else
    let n := jsTrim (collapseWs (foldPunct (jsTrim s)))
    joinSep '.' ((splitSp (jsToLower n)).filter (fun w => decide (0 < w.length)))

/-- toSnakeCase from refined_prompt.js lines 304-331, string argument: same
pipeline as toDotCase but joined with underscores. -/
def toSnakeCaseStr (s : List Char) : List Char :=
  if (jsTrim s).length = 0 then []
  else
    let n := jsTrim (collapseWs (foldPunct (jsTrim s)))
    joinSep '_' ((splitSp (jsToLower n)).filter (fun w => decide (0 < w.length)))

/-- camelCase from refined_prompt.js lines 223-261, string argument.  Note
line 240: its folding regular expression is /[^a-zA-Z\s]/g, so digits are
replaced by spaces as well. -/
def camelCaseStr (s : List Char) : List Char :=
  if (jsTrim s).length = 0 then []
  else
    let n := jsTrim (collapseWs (foldLetters (jsTrim s)))
    ((camelMapIdx (splitSp (jsToLower n))).filter (fun w => decide (0 < w.length))).flatten

/-- toCamelCase from refined_prompt.js lines 363-368, string argument: the
whole string is lowercased, runs of [-_\s] separators are removed with the
following character uppercased, and the first character is lowercased.  No
trimming, no punctuation folding, no dot handling. -/
def toCamelCaseStr (s : List Char) : List Char :=
  lowerFirst (tccReplace (jsToLower s))

/-- Model of the dynamically typed JavaScript argument: a string or one of
the non-string shapes the spec's tests mention. -/
inductive JSValue where
  | str (s : List Char)
  | num
  | nullV
  | undef
  | obj
  | boolV
deriving DecidableEq

/-- The JavaScript typeof operator on a `JSValue` (typeof null is "object"). -/
def typeofName : JSValue → String
  | .str _ => "string"
  | .num => "number"
  | .nullV => "object"
  | .undef => "undefined"
  | .obj => "object"
  | .boolV => "boolean"

/-- The diagnostic detail used in the validation message: the template
str === null ? 'null' : typeof str. -/
def errDetail : JSValue → String
  | .nullV => "null"
  | v => typeofName v

/-- The message of the validation TypeError thrown by normalizeString,
toKebabCase, robustCamelCase and toDotCase. -/
def invalidMsg (v : JSValue) : String :=
  "Input must be a string, received " ++ errDetail v

/-- The sentinel string RETURNED (not thrown) by camelCase and toSnakeCase
in refined_prompt.js for a non-string argument. -/
def sentinelMsg (v : JSValue) : String :=
  "Error: Input must be a string, but received " ++ typeofName v

/-- Model of a thrown JavaScript error.  `typeError` carries the message of
an explicitly constructed TypeError; `nativeNotAFunction` stands for the
engine-raised TypeError produced by calling a string method on a non-string
value (its exact message is engine dependent, so it is not modelled). -/
inductive JSError where
  | typeError (msg : String)
  | nativeNotAFunction
deriving DecidableEq

/-- normalizeString from chain_prompt.js lines 56-76 with its type check. -/
def normalizeString : JSValue → Except JSError (List (List Char))
  | .str s => .ok (normalizeWords s)
  | v => .error (.typeError (invalidMsg v))

/-- toKebabCase from chain_prompt.js lines 164-199 with its type check. -/
def toKebabCase : JSValue → Except JSError (List Char)
  | .str s => .ok (toKebabCaseStr s)
  | v => .error (.typeError (invalidMsg v))

/-- robustCamelCase from refined_prompt.js lines 51-89 with its type check. -/
def robustCamelCase : JSValue → Except JSError (List Char)
  | .str s => .ok (robustCamelCaseStr s)
  | v => .error (.typeError (invalidMsg v))

/-- toDotCase from refined_prompt.js lines 122-149 with its type check. -/
def toDotCase : JSValue → Except JSError (List Char)
  | .str s => .ok (toDotCaseStr s)
  | v => .error (.typeError (invalidMsg v))

/-- camelCase from refined_prompt.js lines 223-261: for a non-string it
RETURNS a sentinel error string instead of throwing (lines 225-227). -/
def camelCase : JSValue → Except JSError (List Char)
  | .str s => .ok (camelCaseStr s)
  | v => .ok (sentinelMsg v).toList

/-- toSnakeCase from refined_prompt.js lines 304-331: for a non-string it
RETURNS a sentinel error string instead of throwing (lines 306-308). -/
def toSnakeCase : JSValue → Except JSError (List Char)
  | .str s => .ok (toSnakeCaseStr s)
  | v => .ok (sentinelMsg v).toList

/-- toCamelCase from refined_prompt.js lines 363-368: it performs no type
validation at all; on a non-string the call str.toLowerCase() raises the
engine TypeError modelled by `nativeNotAFunction`. -/
def toCamelCase : JSValue → Except JSError (List Char)
  | .str s => .ok (toCamelCaseStr s)
  | _ => .error .nativeNotAFunction

/-! ### Character-level lemmas -/

/-- Valid code points survive the round trip through Char.ofNat. -/
theorem toNat_ofNat_valid (n : Nat) (h : n.isValidChar) : (Char.ofNat n).toNat = n := by
  simp [Char.ofNat, h, Char.toNat, Char.ofNatAux, UInt32.toNat, BitVec.toNat_ofNatLt]

/-- Numbers below the surrogate range are valid code points. -/
theorem isValidChar_of_lt (n : Nat) (h : n < 55296) : n.isValidChar := by
  unfold Nat.isValidChar
  omega

/-- Lowercasing an uppercase ASCII letter adds 32 to its code point. -/
theorem jsToLowerChar_toNat_of_upper {c : Char} (h : isAsciiUpper c = true) :
    (jsToLowerChar c).toNat = c.toNat + 32 := by
  have hb : 65 ≤ c.toNat ∧ c.toNat ≤ 90 := by simpa [isAsciiUpper] using h
  rw [jsToLowerChar, if_pos h, toNat_ofNat_valid _ (isValidChar_of_lt _ (by omega))]

/-- Lowercasing leaves a character that is not an uppercase letter alone. -/
theorem jsToLowerChar_eq_self {c : Char} (h : isAsciiUpper c = false) :
    jsToLowerChar c = c := by
  rw [jsToLowerChar, if_neg (by simp [h])]

/-- Uppercasing a lowercase ASCII letter subtracts 32 from its code point. -/
theorem jsToUpperChar_toNat_of_lower {c : Char} (h : isAsciiLower c = true) :
    (jsToUpperChar c).toNat = c.toNat - 32 := by
  have hb : 97 ≤ c.toNat ∧ c.toNat ≤ 122 := by simpa [isAsciiLower] using h
  rw [jsToUpperChar, if_pos h, toNat_ofNat_valid _ (isValidChar_of_lt _ (by omega))]

/-- Uppercasing leaves a character that is not a lowercase letter alone. -/
theorem jsToUpperChar_eq_self {c : Char} (h : isAsciiLower c = false) :
    jsToUpperChar c = c := by
  rw [jsToUpperChar, if_neg (by simp [h])]

/-- Lowercasing an alphanumeric character yields a lowercase letter or digit. -/
theorem lowerDigit_jsToLowerChar {c : Char} (h : isAlnum c = true) :
    (isAsciiLower (jsToLowerChar c) || isAsciiDigit (jsToLowerChar c)) = true := by
  by_cases hu : isAsciiUpper c = true
  · have := jsToLowerChar_toNat_of_upper hu
    have hb : 65 ≤ c.toNat ∧ c.toNat ≤ 90 := by simpa [isAsciiUpper] using hu
    simp [isAsciiLower, isAsciiDigit, this]
    omega
  · rw [jsToLowerChar_eq_self (by simpa using hu)]
    have := h
    simp [isAlnum, isLetter, isAsciiLower, isAsciiUpper, isAsciiDigit] at this ⊢
    simp [isAsciiUpper] at hu
    omega

/-- A lowercase letter or digit is not whitespace. -/
theorem not_ws_of_lowerDigit {c : Char}
    (h : (isAsciiLower c || isAsciiDigit c) = true) : isWs c = false := by
  simp [isAsciiLower, isAsciiDigit] at h
  simp [isWs]
  omega

/-- A lowercase letter or digit is not the space character. -/
theorem ne_space_of_lowerDigit {c : Char}
    (h : (isAsciiLower c || isAsciiDigit c) = true) : c ≠ ' ' := by
  intro hc
  subst hc
  simp [isAsciiLower, isAsciiDigit] at h

/-- A lowercase letter or digit is not an uppercase letter. -/
theorem not_upper_of_lowerDigit {c : Char}
    (h : (isAsciiLower c || isAsciiDigit c) = true) : isAsciiUpper c = false := by
  simp [isAsciiLower, isAsciiDigit] at h
  simp [isAsciiUpper]
  omega

/-- A lowercase letter or digit is alphanumeric. -/
theorem alnum_of_lowerDigit {c : Char}
    (h : (isAsciiLower c || isAsciiDigit c) = true) : isAlnum c = true := by
  simp [isAsciiLower, isAsciiDigit] at h
  simp [isAlnum, isLetter, isAsciiLower, isAsciiUpper, isAsciiDigit]
  omega

/-- An alphanumeric character is not whitespace. -/
theorem not_ws_of_alnum {c : Char} (h : isAlnum c = true) : isWs c = false := by
  simp [isAlnum, isLetter, isAsciiLower, isAsciiUpper, isAsciiDigit] at h
  simp [isWs]
  omega

/-- An alphanumeric character is not the space character. -/
theorem ne_space_of_alnum {c : Char} (h : isAlnum c = true) : c ≠ ' ' := by
  intro hc
  subst hc
  simp [isAlnum, isLetter, isAsciiLower, isAsciiUpper, isAsciiDigit] at h

/-- Folding keeps an alphanumeric character. -/
theorem foldPunctChar_eq_self_of_alnum {c : Char} (h : isAlnum c = true) :
    foldPunctChar c = c := by
  rw [foldPunctChar, if_pos (by simp [h])]

/-- Every character produced by foldPunct is alphanumeric or whitespace. -/
theorem mem_foldPunct {l : List Char} {c : Char} (h : c ∈ foldPunct l) :
    (isAlnum c || isWs c) = true := by
  rcases List.mem_map.mp h with ⟨d, _, rfl⟩
  rw [foldPunctChar]
  split
  · assumption
  · decide

/-- Every character produced by foldLetters is an ASCII letter or whitespace. -/
theorem mem_foldLetters {l : List Char} {c : Char} (h : c ∈ foldLetters l) :
    (isLetter c || isWs c) = true := by
  rcases List.mem_map.mp h with ⟨d, _, rfl⟩
  rw [foldLetterChar]
  split
  · assumption
  · decide

/-- Mapping a function that is the identity on every member is the identity. -/
theorem map_eq_self_of {l : List Char} {f : Char → Char}
    (h : ∀ c ∈ l, f c = c) : l.map f = l := by
  induction l with
  | nil => rfl
  | cons a t ih =>
    simp only [List.map_cons, h a (List.mem_cons_self a t),
      ih (fun c hc => h c (List.mem_cons_of_mem a hc))]

/-! ### List-level lemmas about the pipeline stages -/

/-- Every character of the whitespace-collapsed string is a space or a
non-whitespace character of the original. -/
theorem mem_collapseWs : ∀ (l : List Char), ∀ c ∈ collapseWs l,
    c = ' ' ∨ (c ∈ l ∧ isWs c = false)
  | [] => by simp [collapseWs]
  | [a] => by
    intro c hc
    simp only [collapseWs, List.mem_singleton] at hc
    subst hc
    by_cases ha : isWs a = true
    · left
      simp [ha]
    · right
      rw [if_neg (by simp [ha])]
      exact ⟨List.mem_singleton_self a, by simpa using ha⟩
  | a :: b :: rest => by
    intro c hc
    rw [collapseWs] at hc
    by_cases hab : (isWs a && isWs b) = true
    · rw [if_pos hab] at hc
      rcases mem_collapseWs (b :: rest) c hc with h | ⟨hm, hw⟩
      · exact Or.inl h
      · exact Or.inr ⟨List.mem_cons_of_mem a hm, hw⟩
    · rw [if_neg hab] at hc
      rcases List.mem_cons.mp hc with h | hm
      · by_cases ha : isWs a = true
        · rw [if_pos ha] at h
          exact Or.inl h
        · rw [if_neg ha] at h
          subst h
          exact Or.inr ⟨List.mem_cons_self _ _, by simpa using ha⟩
      · rcases mem_collapseWs (b :: rest) c hm with h | ⟨hm', hw⟩
        · exact Or.inl h
        · exact Or.inr ⟨List.mem_cons_of_mem a hm', hw⟩

/-- Collapsing commutes past a whitespace-free block at the front. -/
theorem collapseWs_append : ∀ (w l : List Char), (∀ c ∈ w, isWs c = false) →
    collapseWs (w ++ l) = w ++ collapseWs l
  | [], l, _ => rfl
  | [a], l, h => by
    have ha : isWs a = false := h a (List.mem_singleton_self a)
    cases l with
    | nil => simp [collapseWs, ha]
    | cons b t => simp [collapseWs, ha]
  | a :: b :: w', l, h => by
    have ha : isWs a = false := h a (List.mem_cons_self _ _)
    have h' : ∀ c ∈ b :: w', isWs c = false := fun c hc => h c (List.mem_cons_of_mem a hc)
    have := collapseWs_append (b :: w') l h'
    simp only [List.cons_append] at this ⊢
    rw [collapseWs, if_neg (by simp [ha]), if_neg (by simp [ha]), this]

/-- Characters surviving jsTrim come from the original string. -/
theorem mem_jsTrim {l : List Char} {c : Char} (h : c ∈ jsTrim l) : c ∈ l := by
  unfold jsTrim at h
  rw [List.mem_reverse] at h
  have h1 := (List.dropWhile_sublist isWs).mem h
  rw [List.mem_reverse] at h1
  exact (List.dropWhile_sublist isWs).mem h1

/-- A head of a list is a member. -/
theorem mem_of_head? {l : List Char} {c : Char} (h : l.head? = some c) : c ∈ l := by
  cases l with
  | nil => simp at h
  | cons a t =>
    simp only [List.head?_cons, Option.some.injEq] at h
    subst h
    exact List.mem_cons_self a t

/-- dropWhile does nothing when the first character fails the test. -/
theorem dropWhile_eq_self_of_head {l : List Char}
    (h : ∀ c, l.head? = some c → isWs c = false) : l.dropWhile isWs = l := by
  cases l with
  | nil => rfl
  | cons a t =>
    rw [List.dropWhile_cons, if_neg (by simp [h a rfl])]

/-- jsTrim does nothing when neither end of the string is whitespace. -/
theorem jsTrim_eq_self {l : List Char}
    (h1 : ∀ c, l.head? = some c → isWs c = false)
    (h2 : ∀ c, l.getLast? = some c → isWs c = false) : jsTrim l = l := by
  unfold jsTrim
  rw [dropWhile_eq_self_of_head h1]
  rw [dropWhile_eq_self_of_head (by
    intro c hc
    rw [List.head?_reverse] at hc
    exact h2 c hc)]
  exact List.reverse_reverse l

/-- jsTrim does nothing on an entirely whitespace-free string. -/
theorem jsTrim_eq_self_of_forall {l : List Char}
    (h : ∀ c ∈ l, isWs c = false) : jsTrim l = l := by
  refine jsTrim_eq_self (fun c hc => h c (mem_of_head? hc)) (fun c hc => ?_)
  rw [← List.head?_reverse] at hc
  exact h c (List.mem_reverse.mp (mem_of_head? hc))

/-- splitSp never returns the empty list of segments. -/
theorem splitSp_ne_nil : ∀ (l : List Char), splitSp l ≠ []
  | [] => by simp [splitSp]
  | c :: rest => by
    rw [splitSp]
    by_cases hc : c = ' '
    · simp [hc]
    · rw [if_neg hc]
      rcases h : splitSp rest with _ | ⟨w, ws⟩
      · simp
      · simp

/-- Every character of every segment of splitSp is a non-space character of
the input. -/
theorem mem_of_mem_splitSp : ∀ (l : List Char), ∀ w ∈ splitSp l, ∀ c ∈ w,
    c ∈ l ∧ c ≠ ' '
  | [] => by simp [splitSp]
  | a :: rest => by
    intro w hw c hc
    rw [splitSp] at hw
    by_cases ha : a = ' '
    · rw [if_pos ha] at hw
      rcases List.mem_cons.mp hw with h | h
      · subst h
        simp at hc
      · have := mem_of_mem_splitSp rest w h c hc
        exact ⟨List.mem_cons_of_mem a this.1, this.2⟩
    · rw [if_neg ha] at hw
      rcases hs : splitSp rest with _ | ⟨x, xs⟩
      · exact absurd hs (splitSp_ne_nil rest)
      · rw [hs] at hw
        rcases List.mem_cons.mp hw with h | h
        · subst h
          rcases List.mem_cons.mp hc with h' | h'
          · subst h'
            exact ⟨List.mem_cons_self _ _, ha⟩
          · have hx : x ∈ splitSp rest := by
              rw [hs]
              exact List.mem_cons_self _ _
            have := mem_of_mem_splitSp rest x hx c h'
            exact ⟨List.mem_cons_of_mem a this.1, this.2⟩
        · have hx : w ∈ splitSp rest := by
            rw [hs]
            exact List.mem_cons_of_mem x h
          have := mem_of_mem_splitSp rest w hx c hc
          exact ⟨List.mem_cons_of_mem a this.1, this.2⟩

/-- Splitting after a space yields an empty first segment. -/
theorem splitSp_space (l : List Char) : splitSp (' ' :: l) = [] :: splitSp l := by
  rw [splitSp, if_pos rfl]

/-- A space-free block prepended to the input extends the first segment. -/
theorem splitSp_append : ∀ (w l : List Char), (∀ c ∈ w, c ≠ ' ') →
    ∀ x xs, splitSp l = x :: xs → splitSp (w ++ l) = (w ++ x) :: xs
  | [], l, _, x, xs, h => by simpa using h
  | a :: w', l, h, x, xs, hs => by
    have ha : a ≠ ' ' := h a (List.mem_cons_self _ _)
    have h' : ∀ c ∈ w', c ≠ ' ' := fun c hc => h c (List.mem_cons_of_mem a hc)
    have ih := splitSp_append w' l h' x xs hs
    simp only [List.cons_append]
    rw [splitSp, if_neg ha, ih]

/-- A nonempty first word makes the joined string nonempty. -/
theorem joinSep_ne_nil {sep : Char} {w : List Char} (hw : w ≠ []) :
    ∀ ws, joinSep sep (w :: ws) ≠ []
  | [] => by simpa [joinSep] using hw
  | x :: t => by
    show w ++ _ ≠ []
    cases w with
    | nil => exact absurd rfl hw
    | cons a b => simp

/-- Unfolding equation of joinSep on a two-or-more element list. -/
theorem joinSep_cons₂ (sep : Char) (w x : List Char) (ws : List (List Char)) :
    joinSep sep (w :: x :: ws) = w ++ sep :: joinSep sep (x :: ws) := rfl

/-- Every character of a joined string is a word character or the separator. -/
theorem mem_joinSep : ∀ (sep : Char) (ws : List (List Char)), ∀ c ∈ joinSep sep ws,
    (∃ w ∈ ws, c ∈ w) ∨ c = sep
  | _, [] => by simp [joinSep]
  | _, [w] => by
    intro c hc
    rw [joinSep] at hc
    exact Or.inl ⟨w, List.mem_singleton_self w, hc⟩
  | sep, w :: x :: t => by
    intro c hc
    rw [joinSep_cons₂] at hc
    rcases List.mem_append.mp hc with h | h
    · exact Or.inl ⟨w, List.mem_cons_self _ _, h⟩
    · rcases List.mem_cons.mp h with h' | h'
      · exact Or.inr h'
      · rcases mem_joinSep sep (x :: t) c h' with ⟨y, hy, hcy⟩ | h''
        · exact Or.inl ⟨y, List.mem_cons_of_mem w hy, hcy⟩
        · exact Or.inr h''

/-- The joined string of a nonempty first word starts inside that word. -/
theorem joinSep_head_cons {sep : Char} {w : List Char} (hw : w ≠ []) :
    ∀ ws, ∃ d j, joinSep sep (w :: ws) = d :: j ∧ d ∈ w := by
  intro ws
  cases w with
  | nil => exact absurd rfl hw
  | cons a b =>
    cases ws with
    | nil => exact ⟨a, b, by rw [joinSep], List.mem_cons_self _ _⟩
    | cons x t =>
      exact ⟨a, b ++ sep :: joinSep sep (x :: t), by rw [joinSep_cons₂]; rfl,
        List.mem_cons_self _ _⟩

/-- The last character of a joined string of nonempty words lies in one of
the words. -/
theorem joinSep_getLast? : ∀ (sep : Char) (w : List Char) (ws : List (List Char)),
    w ≠ [] → (∀ x ∈ ws, x ≠ []) →
    ∃ c, (joinSep sep (w :: ws)).getLast? = some c ∧ (c ∈ w ∨ ∃ x ∈ ws, c ∈ x)
  | sep, w, [], hw, _ => by
    rw [joinSep]
    exact ⟨w.getLast hw, List.getLast?_eq_getLast w hw, Or.inl (w.getLast_mem hw)⟩
  | sep, w, x :: t, hw, hws => by
    have hx : x ≠ [] := hws x (List.mem_cons_self _ _)
    have ht : ∀ y ∈ t, y ≠ [] := fun y hy => hws y (List.mem_cons_of_mem x hy)
    rcases joinSep_getLast? sep x t hx ht with ⟨c, hc, hm⟩
    refine ⟨c, ?_, ?_⟩
    · rw [joinSep_cons₂,
        List.getLast?_append_of_ne_nil _ (by simp),
        show sep :: joinSep sep (x :: t) = [sep] ++ joinSep sep (x :: t) from rfl,
        List.getLast?_append_of_ne_nil _ (joinSep_ne_nil hx t), hc]
    · rcases hm with h | ⟨y, hy, hcy⟩
      · exact Or.inr ⟨x, List.mem_cons_self _ _, h⟩
      · exact Or.inr ⟨y, List.mem_cons_of_mem x hy, hcy⟩

/-- A rendered token: a nonempty word of lowercase letters and digits.
This is the shape of every word of a snake, kebab or dot rendering. -/
def lowerTok (w : List Char) : Prop :=
  w ≠ [] ∧ ∀ c ∈ w, (isAsciiLower c || isAsciiDigit c) = true

/-- Punctuation folding turns a separator-joined list of alphanumeric words
into the space-joined list of the same words. -/
theorem foldPunct_joinSep {sep : Char} (hsep : foldPunctChar sep = ' ') :
    ∀ (W : List (List Char)), (∀ w ∈ W, ∀ c ∈ w, isAlnum c = true) →
    foldPunct (joinSep sep W) = joinSep ' ' W
  | [] => by simp [joinSep, foldPunct]
  | [w] => by
    intro h
    show foldPunct w = w
    exact map_eq_self_of fun c hc =>
      foldPunctChar_eq_self_of_alnum (h w (List.mem_singleton_self w) c hc)
  | w :: x :: t => by
    intro h
    rw [joinSep_cons₂, joinSep_cons₂]
    have hw : foldPunct w = w := map_eq_self_of fun c hc =>
      foldPunctChar_eq_self_of_alnum (h w (List.mem_cons_self _ _) c hc)
    have ih := foldPunct_joinSep hsep (x :: t)
      (fun y hy c hc => h y (List.mem_cons_of_mem w hy) c hc)
    rw [foldPunct, List.map_append, List.map_cons]
    rw [foldPunct] at hw ih
    rw [hw, hsep, ih]

/-- Collapsing whitespace does nothing to a space-joined list of nonempty
whitespace-free words. -/
theorem collapseWs_joinSep : ∀ (W : List (List Char)),
    (∀ w ∈ W, w ≠ [] ∧ ∀ c ∈ w, isWs c = false) →
    collapseWs (joinSep ' ' W) = joinSep ' ' W
  | [] => by simp [joinSep, collapseWs]
  | [w] => by
    intro h
    show collapseWs w = w
    have := collapseWs_append w [] (h w (List.mem_singleton_self w)).2
    simpa [collapseWs] using this
  | w :: x :: t => by
    intro h
    have hw := h w (List.mem_cons_self _ _)
    have hx := h x (List.mem_cons_of_mem w (List.mem_cons_self _ _))
    rw [joinSep_cons₂, collapseWs_append w _ hw.2]
    rcases @joinSep_head_cons ' ' x hx.1 t with ⟨d, j, hj, hd⟩
    have hdw : isWs d = false := hx.2 d hd
    have ih := collapseWs_joinSep (x :: t)
      (fun y hy => h y (List.mem_cons_of_mem w hy))
    rw [hj] at ih ⊢
    rw [collapseWs, if_neg (by simp [hdw]), if_pos (by decide)]
    rw [ih]

/-- Boundary insertion does nothing to a string without uppercase letters. -/
theorem insertBoundaries_eq_self : ∀ (l : List Char),
    (∀ c ∈ l, isAsciiUpper c = false) → insertBoundaries l = l
  | [] => fun _ => rfl
  | [c] => fun _ => rfl
  | a :: b :: rest => by
    intro h
    have hb : isAsciiUpper b = false := h b (List.mem_cons_of_mem a (List.mem_cons_self _ _))
    rw [insertBoundaries, if_neg (by simp [hb])]
    rw [insertBoundaries_eq_self (b :: rest) (fun c hc => h c (List.mem_cons_of_mem a hc))]

/-- Lowercasing does nothing to a string without uppercase letters. -/
theorem jsToLower_eq_self {l : List Char}
    (h : ∀ c ∈ l, isAsciiUpper c = false) : jsToLower l = l :=
  map_eq_self_of fun c hc => jsToLowerChar_eq_self (h c hc)

/-- Trimming does nothing to a space-joined list of nonempty
whitespace-free words. -/
theorem jsTrim_joinSep {w : List Char} {ws : List (List Char)}
    (h : ∀ x ∈ w :: ws, x ≠ [] ∧ ∀ c ∈ x, isWs c = false) :
    jsTrim (joinSep ' ' (w :: ws)) = joinSep ' ' (w :: ws) := by
  have hw := h w (List.mem_cons_self _ _)
  rcases @joinSep_head_cons ' ' w hw.1 ws with ⟨d, j, hj, hd⟩
  refine jsTrim_eq_self (fun c hc => ?_) (fun c hc => ?_)
  · rw [hj] at hc
    simp only [List.head?_cons, Option.some.injEq] at hc
    subst hc
    exact hw.2 _ hd
  · rcases joinSep_getLast? ' ' w ws hw.1 (fun x hx => (h x (List.mem_cons_of_mem w hx)).1)
      with ⟨e, he, hm⟩
    rw [he] at hc
    cases hc
    rcases hm with h' | ⟨y, hy, hcy⟩
    · exact hw.2 c h'
    · exact (h y (List.mem_cons_of_mem w hy)).2 c hcy

/-- Splitting a space-joined list of nonempty space-free words and dropping
empty segments recovers exactly the word list. -/
theorem splitSp_filter_joinSep : ∀ (W : List (List Char)),
    (∀ w ∈ W, w ≠ [] ∧ ∀ c ∈ w, c ≠ ' ') →
    (splitSp (joinSep ' ' W)).filter (fun w => decide (0 < w.length)) = W
  | [] => by
    intro _
    show (splitSp []).filter _ = _
    simp [splitSp]
  | [w] => by
    intro h
    have hw := h w (List.mem_singleton_self w)
    show (splitSp w).filter _ = _
    have : splitSp (w ++ []) = (w ++ []) :: [] := splitSp_append w [] hw.2 [] [] rfl
    rw [List.append_nil] at this
    rw [this]
    have hlen : 0 < w.length := by
      cases w with
      | nil => exact absurd rfl hw.1
      | cons a b => simp
    simp [hlen]
  | w :: x :: t => by
    intro h
    have hw := h w (List.mem_cons_self _ _)
    rw [joinSep_cons₂]
    rcases hs : splitSp (joinSep ' ' (x :: t)) with _ | ⟨y, ys⟩
    · exact absurd hs (splitSp_ne_nil _)
    · have hsp : splitSp (' ' :: joinSep ' ' (x :: t)) = [] :: y :: ys := by
        rw [splitSp_space, hs]
      rw [splitSp_append w _ hw.2 [] (y :: ys) hsp, List.append_nil]
      have hlen : 0 < w.length := by
        cases w with
        | nil => exact absurd rfl hw.1
        | cons a b => simp
      have ih := splitSp_filter_joinSep (x :: t)
        (fun z hz => h z (List.mem_cons_of_mem w hz))
      rw [hs] at ih
      rw [List.filter_cons, if_pos (by simpa using hlen), ih]

/-- Every character surviving boundary insertion is an original character
or an inserted space. -/
theorem mem_insertBoundaries : ∀ (l : List Char), ∀ c ∈ insertBoundaries l,
    c ∈ l ∨ c = ' '
  | [] => by simp [insertBoundaries]
  | [a] => by simp [insertBoundaries]
  | a :: b :: rest => by
    intro c hc
    rw [insertBoundaries] at hc
    by_cases hab : (isAsciiLower a && isAsciiUpper b) = true
    · rw [if_pos hab] at hc
      rcases List.mem_cons.mp hc with h | h
      · exact Or.inl (h ▸ List.mem_cons_self _ _)
      · rcases List.mem_cons.mp h with h' | h'
        · exact Or.inr h'
        · rcases mem_insertBoundaries (b :: rest) c h' with h'' | h''
          · exact Or.inl (List.mem_cons_of_mem a h'')
          · exact Or.inr h''
    · rw [if_neg hab] at hc
      rcases List.mem_cons.mp hc with h | h
      · exact Or.inl (h ▸ List.mem_cons_self _ _)
      · rcases mem_insertBoundaries (b :: rest) c h with h'' | h''
        · exact Or.inl (List.mem_cons_of_mem a h'')
        · exact Or.inr h''

/-- Lowercasing every word of an uppercase-free word list does nothing. -/
theorem map_jsToLower_eq_self : ∀ (W : List (List Char)),
    (∀ w ∈ W, ∀ c ∈ w, isAsciiUpper c = false) → W.map jsToLower = W
  | [] => fun _ => rfl
  | w :: ws => by
    intro h
    rw [List.map_cons, jsToLower_eq_self (h w (List.mem_cons_self _ _)),
      map_jsToLower_eq_self ws (fun x hx => h x (List.mem_cons_of_mem w hx))]

/-- Every word split out of the lowercased normalized form of the shared
snake/dot pipeline is a nonempty string of lowercase letters and digits. -/
theorem words_lowerTok_snakeShape (s : List Char) :
    ∀ w ∈ (splitSp (jsToLower (jsTrim (collapseWs (foldPunct (jsTrim s)))))).filter
        (fun w => decide (0 < w.length)), lowerTok w := by
  intro w hw
  rcases List.mem_filter.mp hw with ⟨hmem, hlen⟩
  have hne : w ≠ [] := by
    intro h
    subst h
    simp at hlen
  refine ⟨hne, fun c hc => ?_⟩
  have h1 := mem_of_mem_splitSp _ w hmem c hc
  rcases List.mem_map.mp h1.1 with ⟨d, hd, rfl⟩
  have hd1 := mem_jsTrim hd
  rcases mem_collapseWs _ d hd1 with rfl | ⟨hd2, hdw⟩
  · exact absurd (jsToLowerChar_eq_self (by decide)) h1.2
  · have := mem_foldPunct hd2
    have halnum : isAlnum d = true := by
      rcases Bool.or_eq_true_iff.mp this with h' | h'
      · exact h'
      · rw [h'] at hdw
        cases hdw
    exact lowerDigit_jsToLowerChar halnum

/-- Every word split out of the normalized form of the toKebabCase
pipeline (which also inserts case boundaries) is nonempty and
alphanumeric. -/
theorem words_alnum_kebabShape (s : List Char) :
    ∀ w ∈ (splitSp (jsTrim (collapseWs (insertBoundaries (foldPunct (jsTrim s)))))).filter
        (fun w => decide (0 < w.length)), w ≠ [] ∧ ∀ c ∈ w, isAlnum c = true := by
  intro w hw
  rcases List.mem_filter.mp hw with ⟨hmem, hlen⟩
  have hne : w ≠ [] := by
    intro h
    subst h
    simp at hlen
  refine ⟨hne, fun c hc => ?_⟩
  have h1 := mem_of_mem_splitSp _ w hmem c hc
  have hd1 := mem_jsTrim h1.1
  rcases mem_collapseWs _ c hd1 with rfl | ⟨hd2, hdw⟩
  · exact absurd rfl h1.2
  · rcases mem_insertBoundaries _ c hd2 with hd3 | rfl
    · have := mem_foldPunct hd3
      rcases Bool.or_eq_true_iff.mp this with h' | h'
      · exact h'
      · rw [h'] at hdw
        cases hdw
    · simp [isWs] at hdw

/-- toSnakeCase always returns an underscore-joined list of rendered
tokens. -/
theorem toSnakeCaseStr_shape (s : List Char) :
    ∃ W, toSnakeCaseStr s = joinSep '_' W ∧ ∀ w ∈ W, lowerTok w := by
  unfold toSnakeCaseStr
  by_cases h : (jsTrim s).length = 0
  · rw [if_pos h]
    exact ⟨[], rfl, by simp⟩
  · rw [if_neg h]
    exact ⟨_, rfl, words_lowerTok_snakeShape s⟩

/-- toDotCase always returns a dot-joined list of rendered tokens. -/
theorem toDotCaseStr_shape (s : List Char) :
    ∃ W, toDotCaseStr s = joinSep '.' W ∧ ∀ w ∈ W, lowerTok w := by
  unfold toDotCaseStr
  by_cases h : (jsTrim s).length = 0
  · rw [if_pos h]
    exact ⟨[], rfl, by simp⟩
  · rw [if_neg h]
    exact ⟨_, rfl, words_lowerTok_snakeShape s⟩

/-- toKebabCase always returns a hyphen-joined list of rendered tokens. -/
theorem toKebabCaseStr_shape (s : List Char) :
    ∃ W, toKebabCaseStr s = joinSep '-' W ∧ ∀ w ∈ W, lowerTok w := by
  unfold toKebabCaseStr
  by_cases h : (jsTrim s).length = 0
  · rw [if_pos h]
    exact ⟨[], rfl, by simp⟩
  · rw [if_neg h]
    by_cases h2 : ((splitSp (jsTrim (collapseWs (insertBoundaries (foldPunct
        (jsTrim s)))))).filter (fun w => decide (0 < w.length))).length = 0
    · rw [if_pos h2]
      exact ⟨[], rfl, by simp⟩
    · rw [if_neg h2]
      refine ⟨_, rfl, fun w hw => ?_⟩
      rcases List.mem_map.mp hw with ⟨x, hx, rfl⟩
      have hx' := words_alnum_kebabShape s x hx
      constructor
      · intro h'
        have := congrArg List.length h'
        simp [jsToLower] at this
        exact hx'.1 this
      · intro c hc
        rcases List.mem_map.mp hc with ⟨d, hd, rfl⟩
        exact lowerDigit_jsToLowerChar (hx'.2 d hd)

/-- Tokens of a lowercase-token list satisfy the side conditions of all
join-and-resplit lemmas. -/
theorem lowerTok_conds {W : List (List Char)} (hW : ∀ w ∈ W, lowerTok w) :
    (∀ w ∈ W, w ≠ [] ∧ ∀ c ∈ w, isWs c = false) ∧
    (∀ w ∈ W, ∀ c ∈ w, isAlnum c = true) ∧
    (∀ w ∈ W, w ≠ [] ∧ ∀ c ∈ w, c ≠ ' ') ∧
    (∀ w ∈ W, ∀ c ∈ w, isAsciiUpper c = false) := by
  refine ⟨fun w hw => ⟨(hW w hw).1, fun c hc => not_ws_of_lowerDigit ((hW w hw).2 c hc)⟩,
    fun w hw c hc => alnum_of_lowerDigit ((hW w hw).2 c hc),
    fun w hw => ⟨(hW w hw).1, fun c hc => ne_space_of_lowerDigit ((hW w hw).2 c hc)⟩,
    fun w hw c hc => not_upper_of_lowerDigit ((hW w hw).2 c hc)⟩

/-- No character of a token join with a non-whitespace separator is
whitespace. -/
theorem joinSep_no_ws {sep : Char} (hsep : isWs sep = false)
    {W : List (List Char)} (hW : ∀ w ∈ W, lowerTok w) :
    ∀ c ∈ joinSep sep W, isWs c = false := by
  intro c hc
  rcases mem_joinSep sep W c hc with ⟨x, hx, hcx⟩ | rfl
  · exact not_ws_of_lowerDigit ((hW x hx).2 c hcx)
  · exact hsep

/-- No character of a token join with a non-uppercase separator is an
uppercase letter. -/
theorem joinSep_no_upper {sep : Char} (hsep : isAsciiUpper sep = false)
    {W : List (List Char)} (hW : ∀ w ∈ W, lowerTok w) :
    ∀ c ∈ joinSep sep W, isAsciiUpper c = false := by
  intro c hc
  rcases mem_joinSep sep W c hc with ⟨x, hx, hcx⟩ | rfl
  · exact not_upper_of_lowerDigit ((hW x hx).2 c hcx)
  · exact hsep

/-- Feeding a snake rendering back through toSnakeCase reproduces it. -/
theorem snake_idem_core : ∀ (W : List (List Char)), (∀ w ∈ W, lowerTok w) →
    toSnakeCaseStr (joinSep '_' W) = joinSep '_' W
  | [], _ => by decide
  | w :: ws, hW => by
    obtain ⟨hWs, halnum, hnosp, hnoup⟩ := lowerTok_conds hW
    have htrim := jsTrim_eq_self_of_forall (@joinSep_no_ws '_' (by decide) _ hW)
    have hne := @joinSep_ne_nil '_' w (hW w (List.mem_cons_self _ _)).1 ws
    have hlen : ¬ (joinSep '_' (w :: ws)).length = 0 := by
      simpa [List.length_eq_zero] using hne
    simp only [toSnakeCaseStr]
    rw [htrim, if_neg hlen,
      foldPunct_joinSep (by decide) _ halnum,
      collapseWs_joinSep _ hWs,
      jsTrim_joinSep hWs,
      jsToLower_eq_self (@joinSep_no_upper ' ' (by decide) _ hW),
      splitSp_filter_joinSep _ hnosp]

/-- Feeding a dot rendering back through toDotCase reproduces it. -/
theorem dot_idem_core : ∀ (W : List (List Char)), (∀ w ∈ W, lowerTok w) →
    toDotCaseStr (joinSep '.' W) = joinSep '.' W
  | [], _ => by decide
  | w :: ws, hW => by
    obtain ⟨hWs, halnum, hnosp, hnoup⟩ := lowerTok_conds hW
    have htrim := jsTrim_eq_self_of_forall (@joinSep_no_ws '.' (by decide) _ hW)
    have hne := @joinSep_ne_nil '.' w (hW w (List.mem_cons_self _ _)).1 ws
    have hlen : ¬ (joinSep '.' (w :: ws)).length = 0 := by
      simpa [List.length_eq_zero] using hne
    simp only [toDotCaseStr]
    rw [htrim, if_neg hlen,
      foldPunct_joinSep (by decide) _ halnum,
      collapseWs_joinSep _ hWs,
      jsTrim_joinSep hWs,
      jsToLower_eq_self (@joinSep_no_upper ' ' (by decide) _ hW),
      splitSp_filter_joinSep _ hnosp]

/-- Feeding a kebab rendering back through toKebabCase reproduces it. -/
theorem kebab_idem_core : ∀ (W : List (List Char)), (∀ w ∈ W, lowerTok w) →
    toKebabCaseStr (joinSep '-' W) = joinSep '-' W
  | [], _ => by decide
  | w :: ws, hW => by
    obtain ⟨hWs, halnum, hnosp, hnoup⟩ := lowerTok_conds hW
    have htrim := jsTrim_eq_self_of_forall (@joinSep_no_ws '-' (by decide) _ hW)
    have hne := @joinSep_ne_nil '-' w (hW w (List.mem_cons_self _ _)).1 ws
    have hlen : ¬ (joinSep '-' (w :: ws)).length = 0 := by
      simpa [List.length_eq_zero] using hne
    simp only [toKebabCaseStr]
    rw [htrim, if_neg hlen,
      foldPunct_joinSep (by decide) _ halnum,
      insertBoundaries_eq_self _ (@joinSep_no_upper ' ' (by decide) _ hW),
      collapseWs_joinSep _ hWs,
      jsTrim_joinSep hWs,
      splitSp_filter_joinSep _ hnosp,
      if_neg (by simp),
      map_jsToLower_eq_self _ hnoup]

/-- Concatenating the segments of splitSp recovers the input minus its
spaces, in order. -/
theorem flatten_splitSp : ∀ (l : List Char),
    (splitSp l).flatten = l.filter (fun c => decide (c ≠ ' '))
  | [] => by simp [splitSp]
  | c :: rest => by
    by_cases hc : c = ' '
    · subst hc
      rw [splitSp_space, List.flatten_cons, List.nil_append, flatten_splitSp rest,
        List.filter_cons, if_neg (by simp)]
    · rcases hs : splitSp rest with _ | ⟨y, ys⟩
      · exact absurd hs (splitSp_ne_nil rest)
      · have h1 : splitSp (c :: rest) = (c :: y) :: ys := by
          rw [splitSp, if_neg hc, hs]
        have ih := flatten_splitSp rest
        rw [hs, List.flatten_cons] at ih
        rw [h1, List.flatten_cons, List.filter_cons, if_pos (by simpa using hc),
          List.cons_append, ih]

/-- Empty segments contribute nothing to a concatenation. -/
theorem flatten_filter_nonempty : ∀ (W : List (List Char)),
    (W.filter (fun w => decide (0 < w.length))).flatten = W.flatten
  | [] => rfl
  | w :: ws => by
    cases w with
    | nil =>
      rw [List.filter_cons, if_neg (by simp), List.flatten_cons, List.nil_append,
        flatten_filter_nonempty ws]
    | cons a t =>
      rw [List.filter_cons, if_pos (by simp), List.flatten_cons, List.flatten_cons,
        flatten_filter_nonempty ws]

/-- Every word of the normalizeString token list is nonempty and
alphanumeric. -/
theorem words_alnum_normShape (s : List Char) :
    ∀ w ∈ (splitSp (normalizedForm s)).filter (fun w => decide (0 < w.length)),
      w ≠ [] ∧ ∀ c ∈ w, isAlnum c = true := by
  intro w hw
  rcases List.mem_filter.mp hw with ⟨hmem, hlen⟩
  have hne : w ≠ [] := by
    intro h
    subst h
    simp at hlen
  refine ⟨hne, fun c hc => ?_⟩
  have h1 := mem_of_mem_splitSp _ w hmem c hc
  have hd1 := mem_jsTrim h1.1
  rcases mem_collapseWs _ c hd1 with rfl | ⟨hd2, hdw⟩
  · exact absurd rfl h1.2
  · have := mem_foldPunct hd2
    rcases Bool.or_eq_true_iff.mp this with h' | h'
    · exact h'
    · rw [h'] at hdw
      cases hdw

/-- Lowercasing keeps ASCII letters inside the letters. -/
theorem letter_jsToLowerChar {c : Char} (h : isLetter c = true) :
    isLetter (jsToLowerChar c) = true := by
  by_cases hu : isAsciiUpper c = true
  · have := jsToLowerChar_toNat_of_upper hu
    have hb : 65 ≤ c.toNat ∧ c.toNat ≤ 90 := by simpa [isAsciiUpper] using hu
    simp [isLetter, isAsciiLower, isAsciiUpper, this]
    omega
  · rwa [jsToLowerChar_eq_self (by simpa using hu)]

/-- Uppercasing keeps ASCII letters inside the letters. -/
theorem letter_jsToUpperChar {c : Char} (h : isLetter c = true) :
    isLetter (jsToUpperChar c) = true := by
  by_cases hl : isAsciiLower c = true
  · have := jsToUpperChar_toNat_of_lower hl
    have hb : 97 ≤ c.toNat ∧ c.toNat ≤ 122 := by simpa [isAsciiLower] using hl
    simp [isLetter, isAsciiLower, isAsciiUpper, this]
    omega
  · rwa [jsToUpperChar_eq_self (by simpa using hl)]

/-- An ASCII letter is not a digit. -/
theorem not_digit_of_letter {c : Char} (h : isLetter c = true) :
    isAsciiDigit c = false := by
  simp [isLetter, isAsciiLower, isAsciiUpper] at h
  simp [isAsciiDigit]
  omega

/-- Capitalization keeps an all-letters word inside the letters. -/
theorem letter_capFirst {w : List Char} (h : ∀ d ∈ w, isLetter d = true) :
    ∀ c ∈ capFirst w, isLetter c = true := by
  cases w with
  | nil => simp [capFirst]
  | cons a t =>
    intro c hc
    rw [capFirst] at hc
    rcases List.mem_cons.mp hc with rfl | hct
    · exact letter_jsToUpperChar (h a (List.mem_cons_self _ _))
    · exact h c (List.mem_cons_of_mem a hct)

/-- Every word of the indexed camel map is an input word or a capitalized
input word. -/
theorem mem_camelMapIdx {W : List (List Char)} {w : List Char}
    (h : w ∈ camelMapIdx W) : w ∈ W ∨ ∃ x ∈ W, w = capFirst x := by
  cases W with
  | nil => cases h
  | cons y ys =>
    rw [camelMapIdx] at h
    rcases List.mem_cons.mp h with rfl | h'
    · exact Or.inl (List.mem_cons_self _ _)
    · rcases List.mem_map.mp h' with ⟨x, hx, rfl⟩
      exact Or.inr ⟨x, List.mem_cons_of_mem y hx, rfl⟩

/-- Every character of every word split out of the lowercased letters-only
normalized form of the camelCase pipeline is an ASCII letter. -/
theorem words_letter_camelShape (s : List Char) :
    ∀ w ∈ splitSp (jsToLower (jsTrim (collapseWs (foldLetters (jsTrim s))))),
      ∀ c ∈ w, isLetter c = true := by
  intro w hw c hc
  have h1 := mem_of_mem_splitSp _ w hw c hc
  rcases List.mem_map.mp h1.1 with ⟨d, hd, rfl⟩
  have hd1 := mem_jsTrim hd
  rcases mem_collapseWs _ d hd1 with rfl | ⟨hd2, hdw⟩
  · exact absurd (jsToLowerChar_eq_self (by decide)) h1.2
  · have := mem_foldLetters hd2
    have hl : isLetter d = true := by
      rcases Bool.or_eq_true_iff.mp this with h' | h'
      · exact h'
      · rw [h'] at hdw
        cases hdw
    exact letter_jsToLowerChar hl

/-! ### Claim theorems -/

/-- C1: for every non-string input, the tokenizer normalizeString and the
validating converters toKebabCase, robustCamelCase and toDotCase fail with
the validation TypeError whose message carries the actual runtime type
name, or the literal "null" marker when the value is null; for every
string input they do not fail. -/
theorem C1_invalid_input_type (v : JSValue) (h : ∀ s, v ≠ JSValue.str s) :
    (normalizeString v = .error (.typeError (invalidMsg v)) ∧
     toKebabCase v = .error (.typeError (invalidMsg v)) ∧
     robustCamelCase v = .error (.typeError (invalidMsg v)) ∧
     toDotCase v = .error (.typeError (invalidMsg v))) ∧
    (v = JSValue.nullV → errDetail v = "null") ∧
    (v ≠ JSValue.nullV → errDetail v = typeofName v) ∧
    (∀ s : List Char,
      normalizeString (JSValue.str s) = .ok (normalizeWords s) ∧
      toKebabCase (JSValue.str s) = .ok (toKebabCaseStr s) ∧
      robustCamelCase (JSValue.str s) = .ok (robustCamelCaseStr s) ∧
      toDotCase (JSValue.str s) = .ok (toDotCaseStr s)) := by
  cases v <;>
    first
    | exact absurd rfl (h _)
    | exact ⟨⟨rfl, rfl, rfl, rfl⟩, by decide, by decide, fun s => ⟨rfl, rfl, rfl, rfl⟩⟩

/-- Witness for C1 at the concrete number input (the call tokenize(42) of
the spec): the validation TypeError carries the type name "number". -/
theorem C1_invalid_input_type_witness :
    normalizeString JSValue.num =
      .error (.typeError "Input must be a string, received number") :=
  ((C1_invalid_input_type JSValue.num (fun _ h => JSValue.noConfusion h)).1).1

/-- C2 counterexample: camelCase applied to the number input does not raise
anything; it returns the sentinel string "Error: Input must be a string,
but received number" in place of a result, refuting the claim that no
renderer-facing function returns a sentinel value. -/
theorem C2_counterexample_sentinel :
    camelCase JSValue.num =
      .ok ("Error: Input must be a string, but received number".toList) := rfl

/-- C2 amended: robustCamelCase, toKebabCase and toDotCase do raise the
validation TypeError for every non-string input, but camelCase and
toSnakeCase instead return a sentinel error string, and toCamelCase
performs no validation at all, failing with the engine TypeError raised by
calling a string method on a non-string value. -/
theorem C2_error_signaling (v : JSValue) (h : ∀ s, v ≠ JSValue.str s) :
    robustCamelCase v = .error (.typeError (invalidMsg v)) ∧
    toKebabCase v = .error (.typeError (invalidMsg v)) ∧
    toDotCase v = .error (.typeError (invalidMsg v)) ∧
    camelCase v = .ok (sentinelMsg v).toList ∧
    toSnakeCase v = .ok (sentinelMsg v).toList ∧
    toCamelCase v = .error .nativeNotAFunction := by
  cases v <;>
    first
    | exact absurd rfl (h _)
    | exact ⟨rfl, rfl, rfl, rfl, rfl, rfl⟩

/-- Witness for C2 amended at the concrete number input: toSnakeCase
returns the sentinel error string instead of raising. -/
theorem C2_error_signaling_witness :
    toSnakeCase JSValue.num =
      .ok ("Error: Input must be a string, but received number".toList) :=
  (C2_error_signaling JSValue.num (fun _ h => JSValue.noConfusion h)).2.2.2.2.1

/-- C3: code behavior at the failing input "firstName".  The tokenizer
normalizeString keeps "firstName" as one token, and toSnakeCase and
toCamelCase both return "firstname" rather than the claimed (and, for
toSnakeCase, self-documented) "first_name" and "firstName"; only
toKebabCase inserts the lower-to-upper boundary. -/
theorem C3_camel_boundary_code_bug :
    normalizeWords "firstName".toList = ["firstName".toList] ∧
    toSnakeCaseStr "firstName".toList = "firstname".toList ∧
    toCamelCaseStr "firstName".toList = "firstname".toList ∧
    "firstname".toList ≠ "first_name".toList ∧
    "firstname".toList ≠ "firstName".toList ∧
    toKebabCaseStr "firstName".toList = "first-name".toList := by
  decide

/-- C4: code behavior at the failing input "123 test string".  Both
toCamelCase and robustCamelCase return "123TestString": the digit token is
preserved verbatim, but since it occupies word position 0 the following
word "test" is capitalized, contradicting the documented "123testString". -/
theorem C4_digit_lead_code_bug :
    toCamelCaseStr "123 test string".toList = "123TestString".toList ∧
    robustCamelCaseStr "123 test string".toList = "123TestString".toList ∧
    "123TestString".toList ≠ "123testString".toList := by
  decide

/-- C5 counterexample: toCamelCase does not treat the dot as a separator,
so toCamelCase("user.id") returns "user.id", not "userId". -/
theorem C5_counterexample_dot :
    toCamelCaseStr "user.id".toList = "user.id".toList ∧
    "user.id".toList ≠ "userId".toList := by
  decide

/-- C5 amended: toCamelCase maps "user_id", "user-id" and "user id" to the
same "userId", but "user.id" stays "user.id" because toCamelCase only
treats hyphens, underscores and whitespace as separators; the dot-style
input is unified only by robustCamelCase. -/
theorem C5_separator_unification :
    toCamelCaseStr "user_id".toList = "userId".toList ∧
    toCamelCaseStr "user-id".toList = "userId".toList ∧
    toCamelCaseStr "user id".toList = "userId".toList ∧
    toCamelCaseStr "user.id".toList = "user.id".toList ∧
    robustCamelCaseStr "user.id".toList = "userId".toList := by
  decide

/-- C6: the empty, whitespace-only and punctuation-only inputs tokenize to
the empty token list without error, every rendering fold applied to the
empty token list returns the empty string, and every converter maps the
three inputs to the empty string. -/
theorem C6_empty_inputs :
    (normalizeWords "".toList = [] ∧ normalizeWords "   ".toList = [] ∧
     normalizeWords "!!!".toList = []) ∧
    (camelJoin [] = [] ∧ pascalJoin [] = [] ∧ camelMapIdx [] = [] ∧
     joinSep '_' [] = [] ∧ joinSep '.' [] = [] ∧ joinSep '-' [] = []) ∧
    (chainCamelCaseStr "".toList = [] ∧ chainSnakeCaseStr "".toList = [] ∧
     chainDotCaseStr "".toList = [] ∧ chainKebabCaseStr "".toList = [] ∧
     chainPascalCaseStr "".toList = [] ∧ toKebabCaseStr "".toList = [] ∧
     toDotCaseStr "".toList = [] ∧ toSnakeCaseStr "".toList = [] ∧
     robustCamelCaseStr "".toList = [] ∧ camelCaseStr "".toList = []) ∧
    (chainCamelCaseStr "   ".toList = [] ∧ chainSnakeCaseStr "   ".toList = [] ∧
     chainDotCaseStr "   ".toList = [] ∧ chainKebabCaseStr "   ".toList = [] ∧
     chainPascalCaseStr "   ".toList = [] ∧ toKebabCaseStr "   ".toList = [] ∧
     toDotCaseStr "   ".toList = [] ∧ toSnakeCaseStr "   ".toList = [] ∧
     robustCamelCaseStr "   ".toList = [] ∧ camelCaseStr "   ".toList = []) ∧
    (chainCamelCaseStr "!!!".toList = [] ∧ chainSnakeCaseStr "!!!".toList = [] ∧
     chainDotCaseStr "!!!".toList = [] ∧ chainKebabCaseStr "!!!".toList = [] ∧
     chainPascalCaseStr "!!!".toList = [] ∧ toKebabCaseStr "!!!".toList = [] ∧
     toDotCaseStr "!!!".toList = [] ∧ toSnakeCaseStr "!!!".toList = [] ∧
     robustCamelCaseStr "!!!".toList = [] ∧ camelCaseStr "!!!".toList = []) := by
  decide

/-- C7 counterexample: toCamelCase strips nothing and treats neither "@",
"#" nor "!" as separators, so toCamelCase("Hello@World#Test!") returns
"hello@world#test!", not the claimed "helloWorldTest". -/
theorem C7_counterexample_toCamelCase :
    toCamelCaseStr "Hello@World#Test!".toList = "hello@world#test!".toList ∧
    "hello@world#test!".toList ≠ "helloWorldTest".toList := by
  decide

/-- C7 amended: on "Hello@World#Test!" the converters toSnakeCase,
toKebabCase and toDotCase return the claimed renderings, the Pascal
renderer chainPascalCase (no function named toPascalCase exists) returns
"HelloWorldTest", and the camel rendering "helloWorldTest" is produced by
camelCase, robustCamelCase and chainCamelCase, while toCamelCase returns
"hello@world#test!". -/
theorem C7_round_trip_formats :
    toSnakeCaseStr "Hello@World#Test!".toList = "hello_world_test".toList ∧
    chainPascalCaseStr "Hello@World#Test!".toList = "HelloWorldTest".toList ∧
    toKebabCaseStr "Hello@World#Test!".toList = "hello-world-test".toList ∧
    toDotCaseStr "Hello@World#Test!".toList = "hello.world.test".toList ∧
    camelCaseStr "Hello@World#Test!".toList = "helloWorldTest".toList ∧
    robustCamelCaseStr "Hello@World#Test!".toList = "helloWorldTest".toList ∧
    chainCamelCaseStr "Hello@World#Test!".toList = "helloWorldTest".toList ∧
    toCamelCaseStr "Hello@World#Test!".toList = "hello@world#test!".toList := by
  decide

/-- C8: rendering is idempotent per separator-based format: re-running
toSnakeCase, toKebabCase or toDotCase on its own output returns the
identical string, for every input string. -/
theorem C8_render_idempotent (s : List Char) :
    toSnakeCaseStr (toSnakeCaseStr s) = toSnakeCaseStr s ∧
    toKebabCaseStr (toKebabCaseStr s) = toKebabCaseStr s ∧
    toDotCaseStr (toDotCaseStr s) = toDotCaseStr s := by
  obtain ⟨W1, h1, hW1⟩ := toSnakeCaseStr_shape s
  obtain ⟨W2, h2, hW2⟩ := toKebabCaseStr_shape s
  obtain ⟨W3, h3, hW3⟩ := toDotCaseStr_shape s
  rw [h1, h2, h3]
  exact ⟨snake_idem_core W1 hW1, kebab_idem_core W2 hW2, dot_idem_core W3 hW3⟩

/-- C9: for every string input, every token produced by normalizeString is
nonempty and purely ASCII alphanumeric (hence free of whitespace,
separators and punctuation), and concatenating the tokens in order yields
exactly the non-space characters of the normalized input, left to right. -/
theorem C9_token_invariant (s : List Char) :
    (∀ w ∈ normalizeWords s, w ≠ [] ∧ ∀ c ∈ w, isAlnum c = true) ∧
    (normalizeWords s).flatten =
      (normalizedForm s).filter (fun c => decide (c ≠ ' ')) := by
  constructor
  · intro w hw
    unfold normalizeWords at hw
    by_cases h : (jsTrim s).length = 0
    · rw [if_pos h] at hw
      cases hw
    · rw [if_neg h] at hw
      exact words_alnum_normShape s w hw
  · unfold normalizeWords
    by_cases h : (jsTrim s).length = 0
    · rw [if_pos h]
      have h0 : jsTrim s = [] := List.length_eq_zero.mp h
      unfold normalizedForm
      rw [h0]
      decide
    · rw [if_neg h]
      rw [flatten_filter_nonempty, flatten_splitSp]

/-- Witness for C9 at the concrete input "hello world": its first token
"hello" is nonempty and alphanumeric. -/
theorem C9_token_invariant_witness :
    "hello".toList ≠ [] ∧ ∀ c ∈ "hello".toList, isAlnum c = true :=
  (C9_token_invariant "hello world".toList).1 "hello".toList (by decide)

/-- C10: the camelCase function of refined_prompt.js deletes digits: its
normalization replaces every character outside ASCII letters and
whitespace, digits included, with a space, so its output never contains a
digit character, for every string input. -/
theorem C10_camelCase_deletes_digits (s : List Char) :
    (camelCaseStr s).all (fun c => !isAsciiDigit c) = true := by
  rw [List.all_eq_true]
  intro c hc
  have hl : isLetter c = true := by
    simp only [camelCaseStr] at hc
    by_cases h : (jsTrim s).length = 0
    · rw [if_pos h] at hc
      cases hc
    · rw [if_neg h] at hc
      rcases List.mem_flatten.mp hc with ⟨w, hw, hcw⟩
      rcases List.mem_filter.mp hw with ⟨hw1, _⟩
      rcases mem_camelMapIdx hw1 with hmem | ⟨x, hx, rfl⟩
      · exact words_letter_camelShape s w hmem c hcw
      · exact letter_capFirst (words_letter_camelShape s x hx) c hcw
  rw [not_digit_of_letter hl]
  rfl

example : normalizeWords "firstName".toList = ["firstName".toList] := by decide
example : toSnakeCaseStr "firstName".toList = "firstname".toList := by decide
example : toCamelCaseStr "firstName".toList = "firstname".toList := by decide
example : toKebabCaseStr "firstName".toList = "first-name".toList := by decide
example : toCamelCaseStr "123 test string".toList = "123TestString".toList := by decide
example : robustCamelCaseStr "123 test string".toList = "123TestString".toList := by decide
example : toCamelCaseStr "user_id".toList = "userId".toList := by decide
example : toCamelCaseStr "user-id".toList = "userId".toList := by decide
example : toCamelCaseStr "user id".toList = "userId".toList := by decide
example : toCamelCaseStr "user.id".toList = "user.id".toList := by decide
example : robustCamelCaseStr "user.id".toList = "userId".toList := by decide
example : toCamelCaseStr "Hello@World#Test!".toList = "hello@world#test!".toList := by decide
example : toSnakeCaseStr "Hello@World#Test!".toList = "hello_world_test".toList := by decide
example : chainPascalCaseStr "Hello@World#Test!".toList = "HelloWorldTest".toList := by decide
example : toKebabCaseStr "Hello@World#Test!".toList = "hello-world-test".toList := by decide
example : toDotCaseStr "Hello@World#Test!".toList = "hello.world.test".toList := by decide
example : camelCaseStr "Hello@World#Test!".toList = "helloWorldTest".toList := by decide
example : robustCamelCaseStr "Hello@World#Test!".toList = "helloWorldTest".toList := by decide
example : chainCamelCaseStr "Hello@World#Test!".toList = "helloWorldTest".toList := by decide
example : normalizeWords "".toList = [] := by decide
example : normalizeWords "   ".toList = [] := by decide
example : normalizeWords "!!!".toList = [] := by decide
example : toKebabCaseStr "!!!".toList = [] := by decide
example : camelCaseStr "a1b2".toList = "aB".toList := by decide
example : toKebabCaseStr "HelloWorld_test Example".toList = "hello-world-test-example".toList := by decide
example : toKebabCaseStr "MOBILE.PHONE.NUMBER".toList = "mobile-phone-number".toList := by decide
example : camelCaseStr "  hello   World!  ".toList = "helloWorld".toList := by decide
